import Mathlib

/-!
Shallow embedding of the core of `src/server.py` (tg-notify server v2.1):
the command store (`handle_tg_command`, `get_commands`, `cleanup_old_commands`)
and the alert registry with its escalation timer (`notify`, `handle_callback`,
`delayed_call_check`, `make_phone_call`).

Python strings are Lean `String`s; Python's whitespace word split `text.split()`
is `pySplit`; Python dicts keyed by strings are association lists with unique
keys (dict key uniqueness is a hypothesis where a proof needs it); the global
mutable state is passed explicitly.  Timestamps are `Int` (Python ints).
-/

namespace TgNotify

/-- Python `text.split()`: split on runs of whitespace, dropping empty pieces.
Implemented structurally on the character list so the kernel can evaluate it. -/
def splitWsAux : List Char → List Char → List (List Char)
  | [], cur => if cur = [] then [] else [cur.reverse]
  | c :: rest, cur =>
    if c.isWhitespace then
      if cur = [] then splitWsAux rest []
      else cur.reverse :: splitWsAux rest []
    else splitWsAux rest (c :: cur)

/-- Python `text.split()` on a Lean string. -/
def pySplit (s : String) : List String := (splitWsAux s.toList []).map String.mk

/-- Python `s[1:]`: drop the first character (used for `parts[0][1:]`). -/
def strTail (s : String) : String := String.mk (s.toList.drop 1)

/-- A stored chat command, as built by `handle_tg_command`
(`{"id": ..., "target": ..., "action": ..., "args": ..., "ts": ...}`). -/
structure Cmd where
  id : Nat
  target : String
  action : String
  args : List String
  ts : Int
deriving DecidableEq

/-- The projection `get_commands` returns to pollers:
`{"id": ..., "action": ..., "args": ..., "ts": ...}` (the target is dropped). -/
structure PollEntry where
  id : Nat
  action : String
  args : List String
  ts : Int
deriving DecidableEq

/-- Build the poller-visible record from a stored command. -/
def Cmd.toEntry (c : Cmd) : PollEntry := ⟨c.id, c.action, c.args, c.ts⟩

/-- `commands_store`: a dict from target string to its ordered command log.
Association list with (reachably) unique keys, in insertion order, like a
Python dict. -/
structure CommandStore where
  entries : List (String × List Cmd)
deriving DecidableEq

/-- `commands_store.get(t, [])`: read a target's log without inserting a key. -/
def CommandStore.get (s : CommandStore) (t : String) : List Cmd :=
  (s.entries.lookup t).getD []

/-- `commands_store[target].append(cmd)` on a `defaultdict(list)`: append to the
log of the (unique) matching key, or create the key at the end if absent. -/
def storeAppend : List (String × List Cmd) → String → Cmd → List (String × List Cmd)
  | [], t, c => [(t, [c])]
  | (k, l) :: rest, t, c =>
    if k = t then (k, l ++ [c]) :: rest
    else (k, l) :: storeAppend rest t c

/-- `commands_store[target].append(cmd)` at the store level. -/
def CommandStore.appendAt (s : CommandStore) (t : String) (c : Cmd) : CommandStore :=
  ⟨storeAppend s.entries t c⟩

/-- The command-system globals: `commands_store` and `command_id_counter`.
All mutations of both happen under `commands_lock`, so handlers act atomically
on this pair. -/
structure CmdState where
  commands_store : CommandStore
  command_id_counter : Nat
deriving DecidableEq

/-- Initial command-system state: empty store, counter 0. -/
def cmdInit : CmdState := ⟨⟨[]⟩, 0⟩

/-- The chat reply `handle_tg_command` produces. -/
inductive TgReply
  | silent
  | usageError
  | stored (target action : String) (args : List String)
deriving DecidableEq

/-- `handle_tg_command`: parse `/target action [args...]`; reject when target
or action is empty; otherwise allocate the next id and append to the store.
`now` is `int(time.time())` at the moment of handling. -/
def handle_tg_command (st : CmdState) (now : Int) (text : String) :
    CmdState × TgReply :=
  let parts := pySplit text
  match parts with
  | [] => (st, .silent)
  | p0 :: rest =>
    let target := strTail p0
    let action := (rest.head?).getD ""
    let args := rest.drop 1
    if target = "" ∨ action = "" then (st, .usageError)
    else
      let newId := st.command_id_counter + 1
      let cmd : Cmd := ⟨newId, target, action, args, now⟩
      (⟨st.commands_store.appendAt target cmd, newId⟩, .stored target action args)

/-- Run a sequence of inbound chat commands; return the final state and the
ids of the commands that were actually stored, in order. -/
def runCommands : CmdState → List (Int × String) → CmdState × List Nat
  | st, [] => (st, [])
  | st, (now, text) :: more =>
    let step := handle_tg_command st now text
    let res := runCommands step.1 more
    match step.2 with
    | .stored _ _ _ => (res.1, step.1.command_id_counter :: res.2)
    | _ => res

/-- `result.sort(key=lambda x: x["id"])`: sort the reply by id ascending. -/
def sortById (l : List PollEntry) : List PollEntry :=
  l.insertionSort (fun a b => a.id ≤ b.id)

/-- One iteration of the loop in `get_commands`: the entries of `t`'s log with
`id > after`, projected to the poller-visible record. -/
def qualifying (s : CommandStore) (t : String) (after : Nat) : List PollEntry :=
  ((s.get t).filter (fun c => after < c.id)).map Cmd.toEntry

/-- `get_commands(target, after)`: collect over `[target, "all"]`, then sort by
id. -/
def get_commands (s : CommandStore) (target : String) (after : Nat) :
    List PollEntry :=
  sortById (qualifying s target after ++ qualifying s "all" after)

/-- `commands_store.get(t, [])` with the store threaded through, to record that
the read leaves the dict untouched (unlike a `defaultdict` index, it inserts
no key). -/
def dictGetD (s : CommandStore) (t : String) : List Cmd × CommandStore :=
  ((s.entries.lookup t).getD [], s)

/-- The loop body of `get_commands` over its target list, store threaded. -/
def get_commands_run : List String → CommandStore → Nat → List PollEntry × CommandStore
  | [], s, _ => ([], s)
  | t :: ts, s, after =>
    let read := dictGetD s t
    let rest := get_commands_run ts read.2 after
    ((read.1.filter (fun c => after < c.id)).map Cmd.toEntry ++ rest.1, rest.2)

/-- `get_commands` with the store state threaded through every dict access,
returning the reply together with the store left behind. -/
def get_commands_step (s : CommandStore) (target : String) (after : Nat) :
    List PollEntry × CommandStore :=
  let run := get_commands_run [target, "all"] s after
  (sortById run.1, run.2)

/-- One pass of the `cleanup_old_commands` loop body at wall-clock `now`:
`cutoff = now - 3600`; keep only commands with `ts > cutoff`; delete a
target's key once its log is empty. -/
def cleanup_old_commands_pass (now : Int) (s : CommandStore) : CommandStore :=
  let cutoff := now - 3600
  ⟨(s.entries.map (fun p => (p.1, p.2.filter (fun c => cutoff < c.ts)))).filter
      (fun p => !p.2.isEmpty)⟩

/-- A `pending_alerts` entry:
`{"message": str, "time": float, "confirmed": bool}` (the stored task handle is
modelled separately). -/
structure PendingAlert where
  message : String
  time : Int
  confirmed : Bool
deriving DecidableEq

/-- `pending_alerts`: dict from alert id to its pending state. -/
abbrev Registry := List (String × PendingAlert)

/-- Externally visible side effects of the alert handlers:
`confirmReplies` counts the acknowledgment path's markup edit + confirmation
reply, `expiredReplies` the already-handled reply, `preCallMsgs` the
about-to-call chat message, and `calls` records one entry per
`make_phone_call` invocation together with its transport outcome. -/
structure Effects where
  confirmReplies : Nat
  expiredReplies : Nat
  preCallMsgs : Nat
  calls : List Bool
deriving DecidableEq

/-- No side effect yet. -/
def noEffects : Effects := ⟨0, 0, 0, []⟩

/-- `pending_alerts[id]["confirmed"] = True`. -/
def setConfirmed (r : Registry) (id : String) : Registry :=
  r.map (fun p => if p.1 = id then (p.1, ⟨p.2.message, p.2.time, true⟩) else p)

/-- `pending_alerts.pop(id, None)`: remove the key (unique in a dict). -/
def popAlert (r : Registry) (id : String) : Registry :=
  r.filter (fun p => !(p.1 == id))

/-- `pending_alerts[id] = entry`: dict assignment (insert or overwrite). -/
def dictSet (r : Registry) (id : String) (a : PendingAlert) : Registry :=
  if (r.lookup id).isSome then
    r.map (fun p => if p.1 = id then (p.1, a) else p)
  else r ++ [(id, a)]

/-- Outcome `handle_callback` reports to the operator. -/
inductive AckOutcome
  | confirmed
  | unknown
  | ignored
deriving DecidableEq

/-- The `callback_data` attached to the acknowledgment button: `"ack_" + id`. -/
def ackData (alert_id : String) : String := "ack_" ++ alert_id

/-- `handle_callback`, run atomically: if the data starts with `"ack_"` and the
alert id (data minus the 4-char marker) is a key of `pending_alerts`, set its
confirmed flag, emit the confirmation side effect, and pop the entry;
otherwise reply that the alert is expired or already handled. -/
def handle_callback (r : Registry) (data : String) :
    Registry × Effects × AckOutcome :=
  match data.toList with
  | 'a' :: 'c' :: 'k' :: '_' :: idChars =>
    let alert_id := String.mk idChars
    if (r.lookup alert_id).isSome then
      let r1 := setConfirmed r alert_id
      let r2 := popAlert r1 alert_id
      (r2, ⟨1, 0, 0, []⟩, .confirmed)
    else (r, ⟨0, 1, 0, []⟩, .unknown)
  | _ => (r, noEffects, .ignored)

/-- The body of `delayed_call_check` after its sleep, run atomically:
re-read the entry; if present and unconfirmed, send the about-to-call message,
invoke `make_phone_call` (whose transport outcome is `callOk`; it catches all
exceptions and returns a bool, so the flow never diverges on failure) and pop
the entry; otherwise do nothing. -/
def delayed_call_check_fire (r : Registry) (alert_id : String) (callOk : Bool) :
    Registry × Effects :=
  match r.lookup alert_id with
  | some a =>
    if a.confirmed then (r, noEffects)
    else (popAlert r alert_id, ⟨0, 0, 1, [callOk]⟩)
  | none => (r, noEffects)

/-- Response of the `/notify` endpoint. -/
inductive NotifyResponse
  | okCritical (alert_id : String)
  | okNormal
  | unauthorized
  | serverError
deriving DecidableEq

/-- Alert-side server state: `pending_alerts` plus the ids for which an
escalation task (`asyncio.create_task(delayed_call_check(...))`) was started. -/
structure AlertServer where
  pending_alerts : Registry
  timers : List String
deriving DecidableEq

/-- The `notify` endpoint.  `apiKeyOk` is the `x_api_key == API_KEY` check,
`alert_id` the id generated from the millisecond clock, `now` the wall clock,
and `sendOk` whether `bot.send_message` succeeds (if it raises, the handler
answers a 500 server error).  In the source the critical path inserts into
`pending_alerts` and starts the timer task only after the send returned. -/
def notify (st : AlertServer) (apiKeyOk : Bool) (priority : String)
    (alert_id : String) (title message : String) (now : Int) (sendOk : Bool) :
    NotifyResponse × AlertServer :=
  if !apiKeyOk then (.unauthorized, st)
  else if priority = "critical" then
    if sendOk then
      (.okCritical alert_id,
        ⟨dictSet st.pending_alerts alert_id
            ⟨title ++ ": " ++ message, now, false⟩,
          st.timers ++ [alert_id]⟩)
    else (.serverError, st)
  else
    if sendOk then (.okNormal, st) else (.serverError, st)

/-! ### Interleaving model of the acknowledge / timer-expiry race

`handle_callback` runs on the Telegram polling thread's event loop while
`delayed_call_check` runs as a task on the uvicorn event loop; `pending_alerts`
is shared with no lock.  Each handler is cut at its suspension points
(`await`s) into atomic steps; a schedule interleaves the two step sequences. -/

/-- Joint state of the two racing handlers working on one alert id. -/
structure RaceState where
  pending_alerts : Registry
  eff : Effects
  timerPC : Nat
  ackPC : Nat
deriving DecidableEq

/-- One atomic step of `delayed_call_check` (post-sleep) on `id`:
step 0 is the `if alert and not alert.get("confirmed")` check; step 1 the
awaited about-to-call `bot.send_message`; step 2 the synchronous
`make_phone_call` followed by the pop. -/
def timerStep (id : String) (callOk : Bool) (s : RaceState) : RaceState :=
  match s.timerPC with
  | 0 =>
    match s.pending_alerts.lookup id with
    | some a =>
      if a.confirmed then { s with timerPC := 3 } else { s with timerPC := 1 }
    | none => { s with timerPC := 3 }
  | 1 =>
    { s with
      eff := ⟨s.eff.confirmReplies, s.eff.expiredReplies,
        s.eff.preCallMsgs + 1, s.eff.calls⟩
      timerPC := 2 }
  | 2 =>
    { s with
      pending_alerts := popAlert s.pending_alerts id
      eff := ⟨s.eff.confirmReplies, s.eff.expiredReplies,
        s.eff.preCallMsgs, s.eff.calls ++ [callOk]⟩
      timerPC := 3 }
  | _ => s

/-- One atomic step of `handle_callback` on `id`: step 0 is the
`alert_id in pending_alerts` check (replying expired when absent); step 1 sets
the confirmed flag; step 2 is the awaited markup edit + confirmation reply;
step 3 pops the entry. -/
def ackStep (id : String) (s : RaceState) : RaceState :=
  match s.ackPC with
  | 0 =>
    if (s.pending_alerts.lookup id).isSome then { s with ackPC := 1 }
    else
      { s with
        eff := ⟨s.eff.confirmReplies, s.eff.expiredReplies + 1,
          s.eff.preCallMsgs, s.eff.calls⟩
        ackPC := 4 }
  | 1 => { s with pending_alerts := setConfirmed s.pending_alerts id, ackPC := 2 }
  | 2 =>
    { s with
      eff := ⟨s.eff.confirmReplies + 1, s.eff.expiredReplies,
        s.eff.preCallMsgs, s.eff.calls⟩
      ackPC := 3 }
  | 3 => { s with pending_alerts := popAlert s.pending_alerts id, ackPC := 4 }
  | _ => s

/-- Run a schedule: `true` runs the next timer step, `false` the next
acknowledgment step. -/
def raceExec (id : String) (callOk : Bool) : RaceState → List Bool → RaceState
  | s, [] => s
  | s, true :: rest => raceExec id callOk (timerStep id callOk s) rest
  | s, false :: rest => raceExec id callOk (ackStep id s) rest

/-- A freshly created critical alert about to be raced over. -/
def raceInit (id msg : String) (t : Int) : RaceState :=
  ⟨[(id, ⟨msg, t, false⟩)], noEffects, 0, 0⟩

/-- Every command id stored anywhere in the store, across all targets. -/
def storeIds (s : CommandStore) : List Nat :=
  s.entries.flatMap (fun p => p.2.map Cmd.id)

/-- The invariant the command system maintains: every stored id was already
allocated (bounded by the counter) and stored ids are globally unique. -/
def cmdWF (st : CmdState) : Prop :=
  (∀ i ∈ storeIds st.commands_store, i ≤ st.command_id_counter) ∧
  (storeIds st.commands_store).Nodup

/-! ## Helper lemmas -/

instance : IsTotal PollEntry (fun a b => a.id ≤ b.id) :=
  ⟨fun a b => Nat.le_total a.id b.id⟩

instance : IsTrans PollEntry (fun a b => a.id ≤ b.id) :=
  ⟨fun _ _ _ => Nat.le_trans⟩

theorem sortById_perm (l : List PollEntry) : (sortById l).Perm l :=
  List.perm_insertionSort _ l

theorem sortById_sorted (l : List PollEntry) :
    (sortById l).Pairwise (fun a b => a.id ≤ b.id) :=
  List.sorted_insertionSort _ l

theorem mem_sortById {e : PollEntry} {l : List PollEntry} :
    e ∈ sortById l ↔ e ∈ l :=
  (sortById_perm l).mem_iff

theorem mk_toList (s : String) : String.mk s.toList = s := rfl

theorem ackData_toList (id : String) :
    (ackData id).toList = 'a' :: 'c' :: 'k' :: '_' :: id.toList := by
  show (ackData id).data = 'a' :: 'c' :: 'k' :: '_' :: id.data
  simp only [ackData, String.data_append]
  rfl

theorem lookup_popAlert (id : String) (r : Registry) :
    (popAlert r id).lookup id = none := by
  induction r with
  | nil => rfl
  | cons p rest ih =>
    obtain ⟨k, v⟩ := p
    by_cases h : k = id
    · have hdrop : popAlert ((k, v) :: rest) id = popAlert rest id := by
        simp only [popAlert, List.filter_cons]
        simp [h]
      rw [hdrop]; exact ih
    · have hkeep : popAlert ((k, v) :: rest) id = (k, v) :: popAlert rest id := by
        simp only [popAlert, List.filter_cons]
        simp [h]
      have hbeq : (id == k) = false := by simp [Ne.symm h]
      rw [hkeep]
      simp only [List.lookup, hbeq]
      exact ih

theorem handle_callback_shape (id : String) (r : Registry) :
    handle_callback r (ackData id) =
      if (r.lookup id).isSome then
        (popAlert (setConfirmed r id) id, ⟨1, 0, 0, []⟩, AckOutcome.confirmed)
      else (r, ⟨0, 1, 0, []⟩, AckOutcome.unknown) := by
  simp only [handle_callback, ackData_toList, mk_toList]

theorem lookup_none_of_not_mem_keys {β : Type} (t : String)
    (es : List (String × β)) (h : t ∉ es.map Prod.fst) : es.lookup t = none := by
  induction es with
  | nil => rfl
  | cons p rest ih =>
    obtain ⟨k, v⟩ := p
    simp only [List.map_cons, List.mem_cons] at h
    push_neg at h
    have hbeq : (t == k) = false := by simp [h.1]
    simp only [List.lookup, hbeq]
    exact ih h.2

theorem cleanup_keys_sub (now : Int) (es : List (String × List Cmd)) (x : String)
    (hx : x ∈ (cleanup_old_commands_pass now ⟨es⟩).entries.map Prod.fst) :
    x ∈ es.map Prod.fst := by
  simp only [cleanup_old_commands_pass, List.mem_map] at hx ⊢
  obtain ⟨p, hp, rfl⟩ := hx
  obtain ⟨hp1, _⟩ := List.mem_filter.mp hp
  obtain ⟨q, hq, rfl⟩ := List.mem_map.mp hp1
  exact ⟨q, hq, rfl⟩

theorem cleanup_aux (now : Int) (t : String) :
    ∀ es : List (String × List Cmd), (es.map Prod.fst).Nodup →
      ((cleanup_old_commands_pass now ⟨es⟩).get t =
          (CommandStore.get ⟨es⟩ t).filter (fun c => now - 3600 < c.ts)) ∧
      (((cleanup_old_commands_pass now ⟨es⟩).entries.lookup t).isSome ↔
          (CommandStore.get ⟨es⟩ t).filter (fun c => now - 3600 < c.ts) ≠ []) := by
  intro es
  induction es with
  | nil =>
    intro _
    exact ⟨rfl, by simp [cleanup_old_commands_pass, CommandStore.get]⟩
  | cons q rest ih =>
    intro hnd
    obtain ⟨k, l⟩ := q
    have hnd2 : (rest.map Prod.fst).Nodup :=
      (List.nodup_cons.mp (by simpa using hnd)).2
    have hknotin : k ∉ rest.map Prod.fst :=
      (List.nodup_cons.mp (by simpa using hnd)).1
    obtain ⟨ihget, ihsome⟩ := ih hnd2
    have hent : (cleanup_old_commands_pass now ⟨(k, l) :: rest⟩).entries =
        (if (l.filter (fun c => now - 3600 < c.ts)).isEmpty then
          (cleanup_old_commands_pass now ⟨rest⟩).entries
        else
          (k, l.filter (fun c => now - 3600 < c.ts)) ::
            (cleanup_old_commands_pass now ⟨rest⟩).entries) := by
      simp only [cleanup_old_commands_pass, List.map_cons, List.filter_cons]
      cases (l.filter (fun c => now - 3600 < c.ts)).isEmpty <;> simp
    by_cases htk : t = k
    · subst htk
      cases hfl : l.filter (fun c => now - 3600 < c.ts) with
      | nil =>
        have hentn : (cleanup_old_commands_pass now ⟨(t, l) :: rest⟩).entries =
            (cleanup_old_commands_pass now ⟨rest⟩).entries := by
          rw [hent, hfl]; rfl
        have hnone :
            (cleanup_old_commands_pass now ⟨rest⟩).entries.lookup t = none := by
          apply lookup_none_of_not_mem_keys
          intro hmem
          exact hknotin (cleanup_keys_sub now rest t hmem)
        constructor
        · simp [CommandStore.get, hentn, hnone, List.lookup, hfl]
        · simp [CommandStore.get, hentn, hnone, List.lookup, hfl]
      | cons c cs =>
        have hentc : (cleanup_old_commands_pass now ⟨(t, l) :: rest⟩).entries =
            (t, l.filter (fun c => now - 3600 < c.ts)) ::
              (cleanup_old_commands_pass now ⟨rest⟩).entries := by
          rw [hent, hfl]; rfl
        constructor
        · simp [CommandStore.get, hentc, List.lookup, hfl]
        · simp [CommandStore.get, hentc, List.lookup, hfl]
    · have hbeq : (t == k) = false := by simp [htk]
      have hget0 : CommandStore.get ⟨(k, l) :: rest⟩ t =
          CommandStore.get ⟨rest⟩ t := by
        simp [CommandStore.get, List.lookup, hbeq]
      have hlk : (cleanup_old_commands_pass now ⟨(k, l) :: rest⟩).entries.lookup t =
          (cleanup_old_commands_pass now ⟨rest⟩).entries.lookup t := by
        rw [hent]
        cases (l.filter (fun c => now - 3600 < c.ts)).isEmpty
        · simp [List.lookup, hbeq]
        · simp
      constructor
      · have hg : (cleanup_old_commands_pass now ⟨(k, l) :: rest⟩).get t =
            (cleanup_old_commands_pass now ⟨rest⟩).get t := by
          simp [CommandStore.get, hlk]
        rw [hg, hget0]
        exact ihget
      · rw [CommandStore.get] at hget0 ⊢
        rw [hlk, hget0]
        exact ihsome

theorem storeIds_storeAppend (es : List (String × List Cmd)) (t : String)
    (c : Cmd) :
    (storeIds ⟨storeAppend es t c⟩).Perm (c.id :: storeIds ⟨es⟩) := by
  induction es with
  | nil => simp [storeIds, storeAppend]
  | cons p rest ih =>
    obtain ⟨k, l⟩ := p
    by_cases h : k = t
    · simp only [storeAppend, if_pos h, storeIds, List.flatMap_cons,
        List.map_append, List.map_cons]
      rw [List.append_assoc]
      exact List.perm_middle
    · simp only [storeAppend, if_neg h, storeIds, List.flatMap_cons]
      exact (List.Perm.append_left _ ih).trans List.perm_middle

theorem handle_tg_command_shape (st : CmdState) (now : Int) (text : String) :
    ((handle_tg_command st now text).1 = st ∧
      ∀ t a ar, (handle_tg_command st now text).2 ≠ .stored t a ar) ∨
    (∃ tg a ar,
      (handle_tg_command st now text).1 =
        ⟨st.commands_store.appendAt tg
            ⟨st.command_id_counter + 1, tg, a, ar, now⟩,
          st.command_id_counter + 1⟩ ∧
      (handle_tg_command st now text).2 = .stored tg a ar) := by
  unfold handle_tg_command
  cases pySplit text with
  | nil => exact Or.inl ⟨rfl, by simp⟩
  | cons p0 rest =>
    dsimp only
    split
    · exact Or.inl ⟨rfl, by simp⟩
    · exact Or.inr ⟨_, _, _, rfl, rfl⟩

theorem cmdWF_handle (st : CmdState) (now : Int) (text : String)
    (h : cmdWF st) : cmdWF (handle_tg_command st now text).1 := by
  rcases handle_tg_command_shape st now text with ⟨heq, _⟩ | ⟨tg, a, ar, heq, _⟩
  · rw [heq]; exact h
  · rw [heq]
    have hperm := storeIds_storeAppend st.commands_store.entries tg
      ⟨st.command_id_counter + 1, tg, a, ar, now⟩
    constructor
    · intro i hi
      rcases List.mem_cons.mp (hperm.mem_iff.mp hi) with rfl | h1
      · exact le_refl _
      · exact le_trans (h.1 i h1) (Nat.le_succ _)
    · refine hperm.nodup_iff.mpr (List.nodup_cons.mpr ⟨fun hmem => ?_, h.2⟩)
      have hle := h.1 _ hmem
      simp only [Cmd.id] at hle
      omega

theorem runCommands_wf (l : List (Int × String)) :
    ∀ st : CmdState, cmdWF st → cmdWF (runCommands st l).1 := by
  induction l with
  | nil => exact fun st h => h
  | cons p more ih =>
    intro st h
    obtain ⟨now, text⟩ := p
    have hfst : (runCommands st ((now, text) :: more)).1 =
        (runCommands (handle_tg_command st now text).1 more).1 := by
      simp only [runCommands]
      cases (handle_tg_command st now text).2 <;> simp
    rw [hfst]
    exact ih _ (cmdWF_handle st now text h)

theorem runCommands_ids (l : List (Int × String)) :
    ∀ st : CmdState,
      (∀ i ∈ (runCommands st l).2, st.command_id_counter < i) ∧
      (runCommands st l).2.Pairwise (· < ·) := by
  induction l with
  | nil =>
    intro st
    exact ⟨fun i hi => absurd hi (List.not_mem_nil i), List.Pairwise.nil⟩
  | cons p more ih =>
    intro st
    obtain ⟨now, text⟩ := p
    rcases handle_tg_command_shape st now text with ⟨heq, hns⟩ |
      ⟨tg, a, ar, heq, hrep⟩
    · have hred : runCommands st ((now, text) :: more) =
          runCommands (handle_tg_command st now text).1 more := by
        simp only [runCommands]
      rw [hred, heq]
      exact ih st
    · have hred : runCommands st ((now, text) :: more) =
          ((runCommands (handle_tg_command st now text).1 more).1,
            (handle_tg_command st now text).1.command_id_counter ::
              (runCommands (handle_tg_command st now text).1 more).2) := by
        simp only [runCommands, hrep]
      have hctr : (handle_tg_command st now text).1.command_id_counter =
          st.command_id_counter + 1 := by rw [heq]
      obtain ⟨hb, hp⟩ := ih (handle_tg_command st now text).1
      constructor
      · intro i hi
        rw [hred] at hi
        rcases List.mem_cons.mp hi with rfl | h1
        · rw [hctr]; omega
        · have := hb i h1; omega
      · rw [hred]
        refine List.pairwise_cons.mpr ⟨fun j hj => ?_, hp⟩
        exact hb j hj

/-! ## Claim theorems -/

/-- C2: from the initial command-system state, every sequence of inbound chat
commands yields stored command ids that are strictly increasing in creation
order (each successful `handle_tg_command` stores counter + 1 under the
single global `command_id_counter`), and the ids held in the store are unique
across all targets. -/
theorem tg_command_ids_strictly_increasing (l : List (Int × String)) :
    (runCommands cmdInit l).2.Pairwise (· < ·) ∧
    (storeIds (runCommands cmdInit l).1.commands_store).Nodup := by
  refine ⟨(runCommands_ids l cmdInit).2, ?_⟩
  have hwf : cmdWF cmdInit := by
    constructor
    · intro i hi
      simp [storeIds, cmdInit] at hi
    · simp [storeIds, cmdInit]
  exact (runCommands_wf l cmdInit hwf).2

/-- C6: acknowledgment is idempotent.  On an alert id present in the registry
the first acknowledgment reports `confirmed` and performs no call; repeating
it reports `unknown`/already-handled and returns the registry it was given,
unchanged, again without any call; and acknowledging an id that is absent
(never created, already acknowledged or already escalated) likewise reports
`unknown` and mutates nothing. -/
theorem handle_callback_idempotent (r : Registry) (id : String)
    (h : (r.lookup id).isSome = true) :
    (handle_callback r (ackData id)).2.2 = AckOutcome.confirmed ∧
    (handle_callback r (ackData id)).2.1.calls = [] ∧
    handle_callback (handle_callback r (ackData id)).1 (ackData id) =
      ((handle_callback r (ackData id)).1, ⟨0, 1, 0, []⟩, AckOutcome.unknown) ∧
    (∀ r2 : Registry, r2.lookup id = none →
        handle_callback r2 (ackData id) =
          (r2, ⟨0, 1, 0, []⟩, AckOutcome.unknown)) := by
  have h1 : handle_callback r (ackData id) =
      (popAlert (setConfirmed r id) id, ⟨1, 0, 0, []⟩, AckOutcome.confirmed) := by
    rw [handle_callback_shape, if_pos h]
  have habsent : ∀ r2 : Registry, r2.lookup id = none →
      handle_callback r2 (ackData id) =
        (r2, ⟨0, 1, 0, []⟩, AckOutcome.unknown) := by
    intro r2 h2
    rw [handle_callback_shape, if_neg (by simp [h2])]
  refine ⟨by rw [h1], by rw [h1], ?_, habsent⟩
  rw [h1]
  exact habsent _ (lookup_popAlert id _)

/-- Witness for C6: a singleton registry, then the empty registry. -/
theorem handle_callback_idempotent_witness :
    (handle_callback [("7", ⟨"m", 1, false⟩)] (ackData "7")).2.2 =
      AckOutcome.confirmed ∧
    handle_callback [] (ackData "7") =
      ([], ⟨0, 1, 0, []⟩, AckOutcome.unknown) := by
  have h := handle_callback_idempotent [("7", ⟨"m", 1, false⟩)] "7" (by decide)
  exact ⟨h.1, h.2.2.2 [] rfl⟩

/-- C7: when the escalation timer fires while the alert is still present and
unconfirmed, the entry is removed from the registry whether the call
placement succeeds or fails (`callOk` is the transport outcome): exactly one
call attempt is recorded, no retry happens, and no pending-alert state is
left behind. -/
theorem delayed_call_check_removes_alert (r : Registry) (id : String)
    (a : PendingAlert) (callOk : Bool) (h1 : r.lookup id = some a)
    (h2 : a.confirmed = false) :
    delayed_call_check_fire r id callOk =
      (popAlert r id, ⟨0, 0, 1, [callOk]⟩) ∧
    (delayed_call_check_fire r id callOk).1.lookup id = none := by
  have hf : delayed_call_check_fire r id callOk =
      (popAlert r id, ⟨0, 0, 1, [callOk]⟩) := by
    simp [delayed_call_check_fire, h1, h2]
  exact ⟨hf, by rw [hf]; exact lookup_popAlert id r⟩

/-- Witness for C7: a failing transport still retires the alert. -/
theorem delayed_call_check_removes_alert_witness :
    delayed_call_check_fire [("7", ⟨"m", 1, false⟩)] "7" false =
      ([], ⟨0, 0, 1, [false]⟩) := by
  have h := delayed_call_check_removes_alert [("7", ⟨"m", 1, false⟩)] "7"
    ⟨"m", 1, false⟩ false (by decide) rfl
  exact h.1.trans (by decide)

/-- C1: the mutual-exclusion claim fails on the code.  With the acknowledgment
handler and the timer-expiry callback racing on the same freshly created
alert (no lock guards `pending_alerts`, and the timer's check-then-act spans
an awaited send), the schedule that runs the timer's confirmed-check first,
then the whole acknowledgment handler, then the rest of the timer callback,
produces BOTH the confirmation side effect and the call-placement side effect
on one alert. -/
theorem ack_escalate_race_both_effects :
    (raceExec "1700" true (raceInit "1700" "disk full" 50)
        [true, false, false, false, false, true, true]).eff.confirmReplies = 1 ∧
    (raceExec "1700" true (raceInit "1700" "disk full" 50)
        [true, false, false, false, false, true, true]).eff.calls = [true] ∧
    (raceExec "1700" true (raceInit "1700" "disk full" 50)
        [true, false, false, false, false, true, true]).timerPC = 3 ∧
    (raceExec "1700" true (raceInit "1700" "disk full" 50)
        [true, false, false, false, false, true, true]).ackPC = 4 := by
  decide

/-- C4: `get_commands` is a pure read.  With the store threaded through every
dict access of the handler, the store coming out equals the store going in,
for every store state (including a target with no stored log), and the reply
is the one `get_commands` computes. -/
theorem get_commands_pure (s : CommandStore) (target : String) (after : Nat) :
    (get_commands_step s target after).2 = s ∧
    (get_commands_step s target after).1 = get_commands s target after := by
  constructor
  · rfl
  · simp [get_commands_step, get_commands_run, dictGetD, get_commands,
      qualifying, CommandStore.get]

/-- C8 counterexample: the inbound command `"/gold"` (non-empty target, empty
action) is NOT stored: the handler replies with the usage error, the state is
unchanged, and a poll for `"gold"` afterwards delivers nothing. -/
theorem empty_action_not_stored :
    handle_tg_command cmdInit 1000 "/gold" = (cmdInit, .usageError) ∧
    get_commands (handle_tg_command cmdInit 1000 "/gold").1.commands_store
      "gold" 0 = [] := by
  decide

/-- C8 (amended): an inbound chat command whose text parses to a single word
(so the target may be non-empty but the action is the empty string) is
rejected with the usage-error reply and leaves the command system untouched;
the handler does validate that the action is non-empty. -/
theorem handle_tg_command_empty_action_usage (st : CmdState) (now : Int)
    (text w : String) (h1 : pySplit text = [w]) (h2 : strTail w ≠ "") :
    handle_tg_command st now text = (st, .usageError) := by
  simp [handle_tg_command, h1]

/-- Witness for the amended C8 at the concrete input `"/gold"`. -/
theorem handle_tg_command_empty_action_usage_witness :
    handle_tg_command cmdInit 1000 "/gold" = (cmdInit, .usageError) :=
  handle_tg_command_empty_action_usage cmdInit 1000 "/gold" "/gold"
    (by decide) (by decide)

/-- C9: polling with `target = "all"` iterates the pair `[target, "all"]`,
both naming the broadcast log, so every qualifying broadcast command is
returned exactly twice, and the response contains duplicates whenever any
command qualifies. -/
theorem get_commands_broadcast_duplicates (s : CommandStore) (after : Nat) :
    (∀ e : PollEntry, (get_commands s "all" after).count e =
        2 * (qualifying s "all" after).count e) ∧
    (∀ c : Cmd, c ∈ s.get "all" → after < c.id →
        ¬ (get_commands s "all" after).Nodup) := by
  have hform : get_commands s "all" after =
      sortById (qualifying s "all" after ++ qualifying s "all" after) := rfl
  have hcount : ∀ e : PollEntry, (get_commands s "all" after).count e =
      2 * (qualifying s "all" after).count e := by
    intro e
    rw [hform, (sortById_perm _).count_eq, List.count_append]
    omega
  refine ⟨hcount, fun c hc hid hnd => ?_⟩
  have hmem : c.toEntry ∈ qualifying s "all" after := by
    simp only [qualifying, List.mem_map, List.mem_filter]
    exact ⟨c, ⟨hc, by simpa using hid⟩, rfl⟩
  have hpos : (qualifying s "all" after).count c.toEntry ≠ 0 := by
    simpa [List.count_eq_zero] using hmem
  have hle := List.nodup_iff_count_le_one.mp hnd c.toEntry
  rw [hcount c.toEntry] at hle
  omega

/-- Witness for C9: a store with one broadcast command yields a response with
a duplicate entry. -/
theorem get_commands_broadcast_duplicates_witness :
    ¬ (get_commands ⟨[("all", [⟨1, "all", "ping", [], 4⟩])]⟩ "all" 0).Nodup :=
  (get_commands_broadcast_duplicates ⟨[("all", [⟨1, "all", "ping", [], 4⟩])]⟩
      0).2 ⟨1, "all", "ping", [], 4⟩ (by decide) (by decide)

/-- C5: one pass of `cleanup_old_commands` at wall-clock `now` removes a
stored command if and only if `created_at ≤ now - 3600` (retention 3600s):
membership in any target's log after the pass is membership before it plus
`¬ (created_at ≤ now - 3600)`; and a target's key remains in the store after
the pass exactly when its retained log is non-empty (keys of empty logs are
deleted).  Dict keys are unique, hence the `Nodup` hypothesis. -/
theorem cleanup_old_commands_spec (now : Int) (s : CommandStore)
    (hnd : (s.entries.map Prod.fst).Nodup) :
    (∀ (t : String) (c : Cmd), c ∈ (cleanup_old_commands_pass now s).get t ↔
        c ∈ s.get t ∧ ¬ (c.ts ≤ now - 3600)) ∧
    (∀ t : String, ((cleanup_old_commands_pass now s).entries.lookup t).isSome ↔
        (s.get t).filter (fun c => now - 3600 < c.ts) ≠ []) := by
  obtain ⟨es⟩ := s
  constructor
  · intro t c
    rw [(cleanup_aux now t es hnd).1]
    simp [List.mem_filter, not_le]
  · intro t
    exact (cleanup_aux now t es hnd).2

/-- Witness for C5 at the retention boundary: with `now = 10000`, the command
created at `now - 3600 - 1 = 6399` is removed, the one created at
`now - 3600 + 1 = 6401` survives, and the target's key stays present. -/
theorem cleanup_old_commands_spec_witness :
    ((⟨2, "gold", "b", [], 6401⟩ : Cmd) ∈
      (cleanup_old_commands_pass 10000
        ⟨[("gold", [⟨1, "gold", "a", [], 6399⟩, ⟨2, "gold", "b", [], 6401⟩])]⟩).get
        "gold") ∧
    ¬ ((⟨1, "gold", "a", [], 6399⟩ : Cmd) ∈
      (cleanup_old_commands_pass 10000
        ⟨[("gold", [⟨1, "gold", "a", [], 6399⟩, ⟨2, "gold", "b", [], 6401⟩])]⟩).get
        "gold") ∧
    ((cleanup_old_commands_pass 10000
        ⟨[("gold", [⟨1, "gold", "a", [], 6399⟩, ⟨2, "gold", "b", [], 6401⟩])]⟩).entries.lookup
        "gold").isSome := by
  have h := cleanup_old_commands_spec 10000
    ⟨[("gold", [⟨1, "gold", "a", [], 6399⟩, ⟨2, "gold", "b", [], 6401⟩])]⟩
    (by decide)
  refine ⟨(h.1 "gold" _).mpr (by decide), fun hc => ?_, (h.2 "gold").mpr (by decide)⟩
  exact ((h.1 "gold" _).mp hc).2 (by decide)

/-- C3: `get_commands(target, after)` is sound, complete and sorted: every
returned entry has `id > after` and is the projection of a command stored
under `target` or under the broadcast target `"all"`; every stored command of
`target` or `"all"` with `id > after` is returned; and the response is sorted
ascending by id. -/
theorem get_commands_exact (s : CommandStore) (target : String) (after : Nat) :
    (get_commands s target after).Pairwise (fun a b => a.id ≤ b.id) ∧
    (∀ e ∈ get_commands s target after,
        after < e.id ∧
          ∃ c : Cmd, (c ∈ s.get target ∨ c ∈ s.get "all") ∧ c.toEntry = e) ∧
    (∀ c : Cmd, (c ∈ s.get target ∨ c ∈ s.get "all") → after < c.id →
        c.toEntry ∈ get_commands s target after) := by
  refine ⟨sortById_sorted _, ?_, ?_⟩
  · intro e he
    rw [get_commands, mem_sortById, List.mem_append] at he
    rcases he with h | h
    · simp only [qualifying, List.mem_map, List.mem_filter,
        decide_eq_true_eq] at h
      obtain ⟨c, ⟨hc, hid⟩, rfl⟩ := h
      exact ⟨by simpa [Cmd.toEntry] using hid, c, Or.inl hc, rfl⟩
    · simp only [qualifying, List.mem_map, List.mem_filter,
        decide_eq_true_eq] at h
      obtain ⟨c, ⟨hc, hid⟩, rfl⟩ := h
      exact ⟨by simpa [Cmd.toEntry] using hid, c, Or.inr hc, rfl⟩
  · intro c hc hid
    rw [get_commands, mem_sortById, List.mem_append]
    rcases hc with h | h
    · refine Or.inl ?_
      simp only [qualifying, List.mem_map, List.mem_filter, decide_eq_true_eq]
      exact ⟨c, ⟨h, hid⟩, rfl⟩
    · refine Or.inr ?_
      simp only [qualifying, List.mem_map, List.mem_filter, decide_eq_true_eq]
      exact ⟨c, ⟨h, hid⟩, rfl⟩

/-- Witness for C3 at a concrete store and cursor. -/
theorem get_commands_exact_witness :
    ({ id := 2, action := "x", args := [], ts := 5 } : PollEntry) ∈
      get_commands ⟨[("gold", [⟨2, "gold", "x", [], 5⟩])]⟩ "gold" 1 :=
  (get_commands_exact ⟨[("gold", [⟨2, "gold", "x", [], 5⟩])]⟩ "gold" 1).2.2
    ⟨2, "gold", "x", [], 5⟩ (Or.inl (by decide)) (by decide)

/-- C10: on a critical notify with a valid key, the pending-alert entry and
the escalation timer are created only after the chat send succeeds: when the
send raises, the handler reports a server error and both the registry and the
timer list are exactly what they were (and no alert id is returned); when the
send succeeds, the entry is inserted and the timer task is started. -/
theorem notify_critical_send_failure (st : AlertServer)
    (alert_id title text : String) (now : Int) :
    notify st true "critical" alert_id title text now false =
      (.serverError, st) ∧
    notify st true "critical" alert_id title text now true =
      (.okCritical alert_id,
        ⟨dictSet st.pending_alerts alert_id ⟨title ++ ": " ++ text, now, false⟩,
          st.timers ++ [alert_id]⟩) := by
  constructor <;> rfl

end TgNotify
